import Mathlib

/-!
Verification of the per-namespace CNI configuration resolver and delegator.

The program under study is a small Go CNI plugin.  Its core pieces are:
  * `parseExtraArgs` — decodes the semicolon-delimited `CNI_ARGS` string;
  * `config.getNetConf` — resolves a network configuration for the pod's
    Kubernetes namespace (namespace-specific entry, else non-empty default,
    else error);
  * `delegateAdd` / `delegateDel` — re-serialize the resolved configuration
    and invoke the subordinate plugin named by its `type` field.

Modelling conventions:
  * Go strings are modelled as `List Char` (`Str`).
  * Go maps are modelled as association lists together with Go-map read
    (`goLookup`, missing key yields the zero value) and write
    (`goMapInsert`, update-in-place-or-append) operations.
  * JSON-decoded Go values (`interface` values produced by
    `encoding/json.Unmarshal`) are modelled by the inductive `JsonVal`.
  * Failure is modelled with `Except`; a Go runtime panic (from the
    unchecked type assertion in the delegator) is a distinct
    `DelegateOutcome.panicked` outcome, not an error return.
-/

namespace KubeCni

/-- Go strings, modelled as lists of characters. -/
abbrev Str := List Char

/-- A JSON-decoded Go value, as produced by `encoding/json.Unmarshal` into
an `interface` value.  Nested arrays and objects are never inspected by this
core (they are opaque pass-through data), so they are modelled as opaque raw
payloads, following the spec's own design note for typed reimplementations. -/
inductive JsonVal where
  | null
  | bool (b : Bool)
  | num (n : Int)
  | str (s : Str)
  | blob (raw : Str)
deriving DecidableEq

/-- An opaque network-configuration object: the Go `map[string]interface` value,
modelled as an association list from keys to JSON values. -/
abbrev NetConf := List (Str × JsonVal)

/-- Go map read: return the value stored at key `k`, if any.  (Reading a
missing key in Go yields the value type's zero value; callers use `.getD`
with the zero value to model that.) -/
def goLookup {β : Type} (k : Str) : List (Str × β) → Option β
  | [] => none
  | p :: ps => if p.1 = k then some p.2 else goLookup k ps

/-- Go map write `m[k] = v`: replace the binding of `k` if present,
otherwise add a new binding. -/
def goMapInsert {β : Type} (k : Str) (v : β) : List (Str × β) → List (Str × β)
  | [] => [(k, v)]
  | p :: ps => if p.1 = k then (k, v) :: ps else p :: goMapInsert k v ps

/-- `strings.Split s ";"` for a one-character separator: split at every
occurrence of the separator, keeping empty segments (an empty input yields
one empty segment, as in Go). -/
def splitOnChar (sep : Char) : Str → List Str
  | [] => [[]]
  | c :: cs =>
    if c = sep then [] :: splitOnChar sep cs
    else
      match splitOnChar sep cs with
      | [] => [[c]]
      | seg :: rest => (c :: seg) :: rest

/-- Split a string at the first occurrence of `sep`, if any. -/
def splitFirst (sep : Char) : Str → Option (Str × Str)
  | [] => none
  | c :: cs =>
    if c = sep then some ([], cs)
    else (splitFirst sep cs).map (fun kv => (c :: kv.1, kv.2))

/-- `strings.SplitN s sep 2`: at most two pieces, split at the first
occurrence of the separator. -/
def splitN2 (sep : Char) (s : Str) : List Str :=
  match splitFirst sep s with
  | none => [s]
  | some kv => [kv.1, kv.2]

/-- One iteration of the loop body of `parseExtraArgs`: split the segment on
the first `=`; if fewer than two pieces result, skip it, otherwise store
key and value in the map. -/
def parseStep (parsedArgs : List (Str × Str)) (s : Str) : List (Str × Str) :=
  match splitN2 '=' s with
  | [k, v] => goMapInsert k v parsedArgs
  | _ => parsedArgs

/-- `parseExtraArgs`: parse the `CNI_ARGS` string, a semicolon-delimited
list of `key=value` segments, into a map, skipping segments that do not
split into two pieces at an `=`. -/
def parseExtraArgs (args : Str) : List (Str × Str) :=
  (splitOnChar ';' args).foldl parseStep []

/-- A segment is well formed when it contains an `=` (the code keeps exactly
these segments). -/
def wellFormedSeg (s : Str) : Bool := decide ('=' ∈ s)

/-- The top-level configuration document (Go struct `config`). -/
structure Config where
  Name : Str
  TypeField : Str
  LogLevel : Str
  Default : NetConf
  Namespaces : List (Str × NetConf)
deriving DecidableEq

/-- The runtime-argument key carrying the pod's Kubernetes namespace. -/
def kPodNamespace : Str := "K8S_POD_NAMESPACE".data

/-- The runtime-argument key carrying the pod's name (diagnostics only). -/
def kPodName : Str := "K8S_POD_NAME".data

/-- The error message for a missing or empty namespace argument. -/
def missingNamespaceMsg : Str := "Kubernetes namespace argument missing or empty.".data

/-- The double-quote character, used by the `%q` format verb. -/
def dquote : Char := Char.ofNat 34

/-- `%q` quoting of a namespace name (escaping of special characters inside
the name is not modelled; the claims do not depend on it). -/
def goQuote (s : Str) : Str := dquote :: (s ++ [dquote])

/-- The error message produced when neither a namespace-specific entry nor a
non-empty default exists, naming the namespace. -/
def noConfigMsg (ns : Str) : Str :=
  "Config for namespace ".data ++ goQuote ns ++ " not found, and no default given.".data

/-- Steps 2-5 of the resolution algorithm of `getNetConf`, acting on the
extracted namespace value: fail on an empty namespace; a namespace-specific
entry takes precedence; otherwise use a non-empty default; otherwise fail
naming the namespace. -/
def resolveNs (c : Config) (ns : Str) : Except Str NetConf :=
  if ns = [] then
    Except.error missingNamespaceMsg
  else
    match goLookup ns c.Namespaces with
    | some cfg => Except.ok cfg
    | none =>
      if c.Default.length = 0 then
        Except.error (noConfigMsg ns)
      else
        Except.ok c.Default

/-- `config.getNetConf`: parse the runtime arguments, extract the namespace
value (the zero value `""` when the key is absent), and resolve. -/
def getNetConf (c : Config) (args : Str) : Except Str NetConf :=
  resolveNs c ((goLookup kPodNamespace (parseExtraArgs args)).getD [])

/-- The debug message logged when a namespace-specific entry is selected. -/
def nsSpecificMsg : Str := "Using namespace specific config.".data

/-- The debug message logged when the default entry is selected. -/
def defaultUsedMsg : Str := "Per-namespace config not found. Using default.".data

/-- One structured log record emitted through the logger (message plus the
namespace, pod and config fields attached by `log.WithFields`). -/
structure LogEvent where
  message : Str
  ns : Str
  pod : Str
  cfg : NetConf
deriving DecidableEq

/-- `config.getNetConf` with its interaction with the ambient logger made
explicit: the function receives the log emitted so far and returns the pair
of its result and the extended log.  The pod name is read from the arguments
and used only in the log records. -/
def getNetConfLog (c : Config) (args : Str) (log : List LogEvent) :
    Except Str NetConf × List LogEvent :=
  let extraArgs := parseExtraArgs args
  let ns := (goLookup kPodNamespace extraArgs).getD []
  let pod := (goLookup kPodName extraArgs).getD []
  if ns = [] then
    (Except.error missingNamespaceMsg, log)
  else
    match goLookup ns c.Namespaces with
    | some cfg => (Except.ok cfg, log ++ [LogEvent.mk nsSpecificMsg ns pod cfg])
    | none =>
      if c.Default.length = 0 then
        (Except.error (noConfigMsg ns), log)
      else
        (Except.ok c.Default, log ++ [LogEvent.mk defaultUsedMsg ns pod c.Default])

/-- The key of the `type` field that selects the subordinate plugin. -/
def kTypeField : Str := "type".data

/-- Outcome of a delegator call: a Go runtime panic, an error return, or a
successful return. -/
inductive DelegateOutcome (α : Type) where
  | panicked
  | err (msg : Str)
  | ok (val : α)
deriving DecidableEq

/-- The unchecked Go type assertion `netconf["type"].(string)`: it yields the
string when the key is bound to a string value; otherwise (missing key — a
nil interface value — or a value of another type) the assertion panics,
modelled by `none`. -/
def typeFieldString (netconf : NetConf) : Option Str :=
  match goLookup kTypeField netconf with
  | some (JsonVal.str t) => some t
  | _ => none

/-- Lexicographic comparison of keys by character code. -/
def strLe : Str → Str → Bool
  | [], _ => true
  | _ :: _, [] => false
  | a :: as, b :: bs =>
    if a.val < b.val then true
    else if b.val < a.val then false
    else strLe as bs

/-- Ordering of map entries by key, used by the marshaller. -/
abbrev keyLE {β : Type} (p q : Str × β) : Prop := strLe p.1 q.1 = true

/-- Modelled from the spec: `encoding/json.Marshal` of a string-keyed Go map
(the Go standard library, outside this repository) emits the map's entries
sorted by key, each value re-encoded untouched.  Only this structural
behaviour is modelled; the byte-level JSON syntax is not. -/
def jsonMarshal (nc : NetConf) : List (Str × JsonVal) :=
  List.insertionSort keyLE nc

/-- Modelled from the spec: `encoding/json.Unmarshal` of the marshalled
entries back into a string-keyed Go map (the inverse boundary of
`jsonMarshal`): each wire entry is inserted into a fresh map. -/
def jsonUnmarshal (entries : List (Str × JsonVal)) : NetConf :=
  entries.foldl (fun m p => goMapInsert p.1 p.2 m) []

/-- `delegateAdd`: marshal the resolved configuration, then invoke the
subordinate plugin named by `netconf["type"].(string)` with the marshalled
bytes, propagating its error or its result (which the caller prints).
`json.Marshal` cannot fail on JSON-decoded values, so the marshal-error
branch of the source is unreachable in the model.  The subordinate
invocation is a process boundary, passed in as a function argument. -/
def delegateAdd (invokeAdd : Str → List (Str × JsonVal) → Except Str JsonVal)
    (netconf : NetConf) : DelegateOutcome JsonVal :=
  let ncBytes := jsonMarshal netconf
  match typeFieldString netconf with
  | some t =>
    match invokeAdd t ncBytes with
    | Except.error e => DelegateOutcome.err e
    | Except.ok result => DelegateOutcome.ok result
  | none => DelegateOutcome.panicked

/-- `delegateDel`: marshal the resolved configuration, then invoke the
subordinate plugin named by `netconf["type"].(string)` for teardown; no
result payload on success. -/
def delegateDel (invokeDel : Str → List (Str × JsonVal) → Except Str Unit)
    (netconf : NetConf) : DelegateOutcome Unit :=
  let ncBytes := jsonMarshal netconf
  match typeFieldString netconf with
  | some t =>
    match invokeDel t ncBytes with
    | Except.error e => DelegateOutcome.err e
    | Except.ok _ => DelegateOutcome.ok ()
  | none => DelegateOutcome.panicked

/-- A sample namespace-specific network configuration. -/
def sampleEntry : NetConf := [(kTypeField, JsonVal.str "bridge".data)]

/-- A sample default network configuration. -/
def sampleDefault : NetConf := [(kTypeField, JsonVal.str "ptp".data)]

/-- A sample configuration document with a default and two namespace
entries, one of which is the empty object. -/
def sampleConfig : Config :=
  Config.mk "mynet".data "kube-ns".data "debug".data sampleDefault
    [("isolated".data, sampleEntry), ("empty".data, [])]

/-- A sample configuration document without a default. -/
def sampleNoDefault : Config :=
  Config.mk "mynet".data "kube-ns".data [] [] [("isolated".data, sampleEntry)]

/-- A subordinate invoker (add) that always succeeds. -/
def invokerOk : Str → List (Str × JsonVal) → Except Str JsonVal :=
  fun _ _ => Except.ok JsonVal.null

/-- A subordinate invoker (del) that always succeeds. -/
def invokerOkDel : Str → List (Str × JsonVal) → Except Str Unit :=
  fun _ _ => Except.ok ()

/-- A network configuration with no `type` field. -/
def ncNoType : NetConf := [("name".data, JsonVal.str "x".data)]

/-- A network configuration whose `type` field is a number, not a string. -/
def ncNumType : NetConf := [(kTypeField, JsonVal.num 3)]

/-- A sample resolved configuration used to exhibit the marshalling
round-trip. -/
def ncRound : NetConf :=
  [(kTypeField, JsonVal.str "bridge".data), ("mtu".data, JsonVal.num 1500),
   ("ipam".data, JsonVal.blob "host-local".data)]

/-! ### Helper lemmas about the argument parser -/

theorem splitFirst_eq_none (sep : Char) (s : Str) :
    splitFirst sep s = none ↔ sep ∉ s := by
  induction s with
  | nil => simp [splitFirst]
  | cons c cs ih =>
    by_cases h : c = sep
    · subst h; simp [splitFirst]
    · simp [splitFirst, h, Option.map_eq_none', ih, Ne.symm h]

theorem parseStep_of_malformed (acc : List (Str × Str)) (s : Str)
    (h : wellFormedSeg s = false) : parseStep acc s = acc := by
  have hn : splitFirst '=' s = none := by
    rw [splitFirst_eq_none]
    simpa [wellFormedSeg] using h
  simp [parseStep, splitN2, hn]

theorem foldl_parseStep_filter (l : List Str) :
    ∀ acc : List (Str × Str),
      l.foldl parseStep acc = (l.filter wellFormedSeg).foldl parseStep acc := by
  induction l with
  | nil => intro acc; rfl
  | cons s t ih =>
    intro acc
    by_cases h : wellFormedSeg s = true
    · simp [List.filter_cons, h, List.foldl_cons, ih]
    · have h' : wellFormedSeg s = false := by simpa using h
      simp [List.filter_cons, h', List.foldl_cons, ih,
        parseStep_of_malformed acc s h']

theorem mem_goMapInsert {β : Type} (k : Str) (v : β) :
    ∀ (m : List (Str × β)) (p : Str × β),
      p ∈ goMapInsert k v m → p = (k, v) ∨ p ∈ m := by
  intro m
  induction m with
  | nil => intro p hp; left; simpa [goMapInsert] using hp
  | cons q qs ih =>
    intro p hp
    by_cases h : q.1 = k
    · rw [goMapInsert, if_pos h] at hp
      rcases List.mem_cons.mp hp with hp | hp
      · left; exact hp
      · right; exact List.mem_cons_of_mem q hp
    · rw [goMapInsert, if_neg h] at hp
      rcases List.mem_cons.mp hp with hp | hp
      · right; exact hp ▸ List.mem_cons_self q qs
      · rcases ih p hp with h1 | h1
        · left; exact h1
        · right; exact List.mem_cons_of_mem q h1

theorem mem_parseStep (acc : List (Str × Str)) (s : Str) (p : Str × Str)
    (hp : p ∈ parseStep acc s) :
    p ∈ acc ∨ (wellFormedSeg s = true ∧ splitN2 '=' s = [p.1, p.2]) := by
  rcases hsf : splitFirst '=' s with _ | kv
  · left
    simpa [parseStep, splitN2, hsf] using hp
  · have hw : wellFormedSeg s = true := by
      have : ¬ splitFirst '=' s = none := by simp [hsf]
      rw [splitFirst_eq_none] at this
      simpa [wellFormedSeg] using this
    have hp' : p ∈ goMapInsert kv.1 kv.2 acc := by
      simpa [parseStep, splitN2, hsf] using hp
    rcases mem_goMapInsert kv.1 kv.2 acc p hp' with h1 | h1
    · right
      refine ⟨hw, ?_⟩
      simp [splitN2, hsf, h1]
    · left; exact h1

theorem mem_foldl_parseStep (l : List Str) :
    ∀ (acc : List (Str × Str)) (p : Str × Str),
      p ∈ l.foldl parseStep acc →
      p ∈ acc ∨ ∃ s, s ∈ l ∧ wellFormedSeg s = true ∧ splitN2 '=' s = [p.1, p.2] := by
  induction l with
  | nil => intro acc p hp; left; exact hp
  | cons s t ih =>
    intro acc p hp
    rw [List.foldl_cons] at hp
    rcases ih (parseStep acc s) p hp with h1 | h1
    · rcases mem_parseStep acc s p h1 with h2 | h2
      · left; exact h2
      · right; exact ⟨s, List.mem_cons_self s t, h2.1, h2.2⟩
    · rcases h1 with ⟨s', hs', hw, hsp⟩
      right; exact ⟨s', List.mem_cons_of_mem s hs', hw, hsp⟩

/-! ### Helper lemmas about map lookup, permutations and unmarshalling -/

theorem goLookup_eq_none_iff {β : Type} (k : Str) (l : List (Str × β)) :
    goLookup k l = none ↔ k ∉ l.map Prod.fst := by
  induction l with
  | nil => simp [goLookup]
  | cons p ps ih =>
    by_cases h : p.1 = k
    · simp only [goLookup, if_pos h, List.map_cons, List.mem_cons, not_or]
      constructor
      · intro hc; exact absurd hc (by simp)
      · rintro ⟨h1, _⟩; exact absurd h.symm h1
    · simp only [goLookup, if_neg h, List.map_cons, List.mem_cons, not_or, ih]
      constructor
      · intro h2; exact ⟨fun he => h he.symm, h2⟩
      · rintro ⟨_, h2⟩; exact h2

theorem mem_of_goLookup_eq_some {β : Type} (k : Str) (v : β) :
    ∀ l : List (Str × β), goLookup k l = some v → (k, v) ∈ l := by
  intro l
  induction l with
  | nil => intro h; simp [goLookup] at h
  | cons p ps ih =>
    intro h
    by_cases hk : p.1 = k
    · rw [goLookup, if_pos hk] at h
      have : v = p.2 := by injection h with h'; exact h'.symm
      subst this
      subst hk
      exact List.mem_cons_self p ps
    · rw [goLookup, if_neg hk] at h
      exact List.mem_cons_of_mem p (ih h)

theorem goLookup_eq_some_of_mem {β : Type} (k : Str) (v : β) :
    ∀ l : List (Str × β), (l.map Prod.fst).Nodup → (k, v) ∈ l →
      goLookup k l = some v := by
  intro l
  induction l with
  | nil => intro _ hm; simp at hm
  | cons p ps ih =>
    intro hd hm
    rw [List.map_cons] at hd
    have hd1 : p.1 ∉ ps.map Prod.fst := (List.nodup_cons.mp hd).1
    have hd2 : (ps.map Prod.fst).Nodup := (List.nodup_cons.mp hd).2
    rcases List.mem_cons.mp hm with hm | hm
    · rw [← hm]
      simp [goLookup]
    · by_cases hk : p.1 = k
      · exfalso
        apply hd1
        rw [hk]
        exact List.mem_map.mpr ⟨(k, v), hm, rfl⟩
      · rw [goLookup, if_neg hk]
        exact ih hd2 hm

theorem goLookup_perm {β : Type} (k : Str) (l l' : List (Str × β))
    (hp : l.Perm l') (hd : (l.map Prod.fst).Nodup) :
    goLookup k l = goLookup k l' := by
  have hd' : (l'.map Prod.fst).Nodup := ((hp.map Prod.fst).nodup_iff).mp hd
  rcases hv : goLookup k l with _ | v
  · have h1 : k ∉ l.map Prod.fst := (goLookup_eq_none_iff k l).mp hv
    have h2 : k ∉ l'.map Prod.fst := fun hm => h1 (((hp.map Prod.fst).mem_iff).mpr hm)
    exact ((goLookup_eq_none_iff k l').mpr h2).symm
  · have hm : (k, v) ∈ l := mem_of_goLookup_eq_some k v l hv
    have hm' : (k, v) ∈ l' := (hp.mem_iff).mp hm
    exact (goLookup_eq_some_of_mem k v l' hd' hm').symm

theorem goMapInsert_fresh {β : Type} (k : Str) (v : β) :
    ∀ m : List (Str × β), k ∉ m.map Prod.fst →
      goMapInsert k v m = m ++ [(k, v)] := by
  intro m
  induction m with
  | nil => intro _; rfl
  | cons p ps ih =>
    intro hk
    have h1 : p.1 ≠ k :=
      fun h => hk (by rw [List.map_cons, ← h]; exact List.mem_cons_self _ _)
    have h2 : k ∉ ps.map Prod.fst :=
      fun h => hk (by rw [List.map_cons]; exact List.mem_cons_of_mem _ h)
    rw [goMapInsert, if_neg h1, ih h2]
    rfl

theorem foldl_goMapInsert_append :
    ∀ (entries : List (Str × JsonVal)) (acc : NetConf),
      (entries.map Prod.fst).Nodup →
      (∀ k, k ∈ entries.map Prod.fst → k ∉ acc.map Prod.fst) →
      entries.foldl (fun m p => goMapInsert p.1 p.2 m) acc = acc ++ entries := by
  intro entries
  induction entries with
  | nil => intro acc _ _; simp
  | cons p ps ih =>
    intro acc hd hfresh
    rw [List.map_cons] at hd
    have hd1 : p.1 ∉ ps.map Prod.fst := (List.nodup_cons.mp hd).1
    have hd2 : (ps.map Prod.fst).Nodup := (List.nodup_cons.mp hd).2
    have hstep : goMapInsert p.1 p.2 acc = acc ++ [p] := by
      rw [goMapInsert_fresh p.1 p.2 acc
        (hfresh p.1 (by rw [List.map_cons]; exact List.mem_cons_self _ _))]
    have hf : ∀ k, k ∈ ps.map Prod.fst → k ∉ (acc ++ [p]).map Prod.fst := by
      intro k hk hmem
      rw [List.map_append] at hmem
      rcases List.mem_append.mp hmem with h1 | h1
      · exact hfresh k
          (by rw [List.map_cons]; exact List.mem_cons_of_mem _ hk) h1
      · rw [List.map_cons, List.map_nil] at h1
        rcases List.mem_cons.mp h1 with h1 | h1
        · exact hd1 (h1 ▸ hk)
        · exact (List.not_mem_nil k) h1
    rw [List.foldl_cons, hstep, ih (acc ++ [p]) hd2 hf,
      List.append_assoc, List.singleton_append]

theorem jsonUnmarshal_eq_self (entries : List (Str × JsonVal))
    (hd : (entries.map Prod.fst).Nodup) : jsonUnmarshal entries = entries := by
  have h := foldl_goMapInsert_append entries [] hd
    (fun k _ hm => (List.not_mem_nil k) hm)
  rw [List.nil_append] at h
  exact h

/-! ### Claim theorems -/

/-- Claim C1: when the namespaces mapping contains an entry for the
(non-empty) namespace value carried by the runtime arguments, `getNetConf`
returns that namespace-specific entry — never the default, even when a
default is present. -/
theorem getNetConf_namespace_precedence (c : Config) (args : Str) (N : Str)
    (e : NetConf) (hN : N ≠ [])
    (hval : (goLookup kPodNamespace (parseExtraArgs args)).getD [] = N)
    (hmem : goLookup N c.Namespaces = some e) :
    getNetConf c args = Except.ok e := by
  unfold getNetConf
  rw [hval]
  unfold resolveNs
  rw [if_neg hN, hmem]

/-- Witness for C1: a document with both a default and an entry for
`isolated` resolves namespace `isolated` to the namespace-specific entry. -/
theorem getNetConf_namespace_precedence_witness :
    getNetConf sampleConfig "K8S_POD_NAMESPACE=isolated;K8S_POD_NAME=p".data =
      Except.ok sampleEntry :=
  getNetConf_namespace_precedence sampleConfig
    "K8S_POD_NAMESPACE=isolated;K8S_POD_NAME=p".data "isolated".data
    sampleEntry (by decide) (by decide) (by decide)

/-- Claim C2: `parseExtraArgs` never fails, keeps exactly the well-formed
`key=value` segments (split at the first `=`) and drops every malformed
segment — one with no `=`, which covers the empty segment and a bare key —
and on the spec's example yields exactly the two-entry mapping. -/
theorem parseExtraArgs_wellformed_only :
    (∀ args : Str, parseExtraArgs args =
        ((splitOnChar ';' args).filter wellFormedSeg).foldl parseStep []) ∧
    (∀ (args : Str) (p : Str × Str), p ∈ parseExtraArgs args →
        ∃ s, s ∈ splitOnChar ';' args ∧ wellFormedSeg s = true ∧
          splitN2 '=' s = [p.1, p.2]) ∧
    parseExtraArgs "K8S_POD_NAMESPACE=test;AnotherArg=123;BadArg".data =
      [("K8S_POD_NAMESPACE".data, "test".data),
       ("AnotherArg".data, "123".data)] := by
  refine ⟨?_, ?_, by decide⟩
  · intro args
    exact foldl_parseStep_filter (splitOnChar ';' args) []
  · intro args p hp
    rcases mem_foldl_parseStep (splitOnChar ';' args) [] p hp with h | h
    · exact absurd h (List.not_mem_nil p)
    · exact h

/-- Witness for C2: every entry of the parsed example, here the
`AnotherArg` one, comes from a well-formed segment of the input. -/
theorem parseExtraArgs_wellformed_only_witness :
    ∃ s, s ∈ splitOnChar ';' "K8S_POD_NAMESPACE=test;AnotherArg=123;BadArg".data ∧
      wellFormedSeg s = true ∧
      splitN2 '=' s = ["AnotherArg".data, "123".data] :=
  parseExtraArgs_wellformed_only.2.1
    "K8S_POD_NAMESPACE=test;AnotherArg=123;BadArg".data
    ("AnotherArg".data, "123".data) (by decide)

/-- Claim C3: when the K8S_POD_NAMESPACE key is absent from the parsed
runtime arguments or carries the empty value, `getNetConf` fails with the
missing-namespace error regardless of the document's contents. -/
theorem getNetConf_missing_namespace (c : Config) (args : Str)
    (h : goLookup kPodNamespace (parseExtraArgs args) = none ∨
         goLookup kPodNamespace (parseExtraArgs args) = some []) :
    getNetConf c args = Except.error missingNamespaceMsg := by
  unfold getNetConf resolveNs
  rcases h with h | h <;> rw [h] <;> simp

/-- Witness for C3: a document with a default and namespace entries still
fails when the namespace value is empty. -/
theorem getNetConf_missing_namespace_witness :
    getNetConf sampleConfig "K8S_POD_NAME=p;K8S_POD_NAMESPACE=".data =
      Except.error missingNamespaceMsg :=
  getNetConf_missing_namespace sampleConfig
    "K8S_POD_NAME=p;K8S_POD_NAMESPACE=".data (Or.inr (by decide))

/-- Claim C4: for a non-empty namespace absent from the namespaces mapping,
when the default is present and non-empty, `getNetConf` returns the default
entry unchanged. -/
theorem getNetConf_default_fallback (c : Config) (args : Str) (N : Str)
    (hN : N ≠ [])
    (hval : (goLookup kPodNamespace (parseExtraArgs args)).getD [] = N)
    (habs : goLookup N c.Namespaces = none) (hdef : c.Default ≠ []) :
    getNetConf c args = Except.ok c.Default := by
  unfold getNetConf
  rw [hval]
  unfold resolveNs
  rw [if_neg hN, habs]
  simp [List.length_eq_zero, hdef]

/-- Witness for C4: namespace `other` is absent, so the non-empty default is
returned unchanged. -/
theorem getNetConf_default_fallback_witness :
    getNetConf sampleConfig "K8S_POD_NAMESPACE=other".data =
      Except.ok sampleConfig.Default :=
  getNetConf_default_fallback sampleConfig "K8S_POD_NAMESPACE=other".data
    "other".data (by decide) (by decide) (by decide) (by decide)

/-- Claim C5: for a non-empty namespace absent from the namespaces mapping,
when no non-empty default is configured, `getNetConf` fails with an error
whose message names the namespace, and returns no configuration. -/
theorem getNetConf_no_config_error (c : Config) (args : Str) (N : Str)
    (hN : N ≠ [])
    (hval : (goLookup kPodNamespace (parseExtraArgs args)).getD [] = N)
    (habs : goLookup N c.Namespaces = none) (hdef : c.Default = []) :
    getNetConf c args = Except.error (noConfigMsg N) ∧
    N <:+: noConfigMsg N := by
  constructor
  · unfold getNetConf
    rw [hval]
    unfold resolveNs
    rw [if_neg hN, habs]
    simp [hdef]
  · exact ⟨"Config for namespace ".data ++ [dquote],
      [dquote] ++ " not found, and no default given.".data,
      by simp [noConfigMsg, goQuote]⟩

/-- Witness for C5: without a default, namespace `other` fails with the
error message naming `other`. -/
theorem getNetConf_no_config_error_witness :
    getNetConf sampleNoDefault "K8S_POD_NAMESPACE=other".data =
      Except.error (noConfigMsg "other".data) ∧
    "other".data <:+: noConfigMsg "other".data :=
  getNetConf_no_config_error sampleNoDefault "K8S_POD_NAMESPACE=other".data
    "other".data (by decide) (by decide) (by decide) (by decide)

/-- Claim C6 (amended): when the configuration's `type` field is missing or
not a string, `delegateAdd` and `delegateDel` panic — the unchecked type
assertion crashes rather than returning an error — and no subordinate plugin
is invoked: the outcome is `panicked` for every possible subordinate
invoker. -/
theorem delegate_bad_type_panics (netconf : NetConf)
    (h : typeFieldString netconf = none) :
    (∀ invokeAdd, delegateAdd invokeAdd netconf = DelegateOutcome.panicked) ∧
    (∀ invokeDel, delegateDel invokeDel netconf = DelegateOutcome.panicked) := by
  constructor
  · intro inv; simp [delegateAdd, h]
  · intro inv; simp [delegateDel, h]

/-- Witness for C6 (amended): a configuration whose `type` field is a
number makes both delegator operations panic. -/
theorem delegate_bad_type_panics_witness :
    delegateAdd invokerOk ncNumType = DelegateOutcome.panicked ∧
    delegateDel invokerOkDel ncNumType = DelegateOutcome.panicked :=
  ⟨(delegate_bad_type_panics ncNumType (by decide)).1 invokerOk,
   (delegate_bad_type_panics ncNumType (by decide)).2 invokerOkDel⟩

/-- Counterexample to claim C6 as stated: on a configuration without a
`type` field, `delegateAdd` does not return a delegation error — the
unchecked type assertion panics instead (the subordinate is still never
invoked). -/
theorem delegateAdd_missing_type_not_error :
    delegateAdd invokerOk ncNoType = DelegateOutcome.panicked ∧
    ¬ ∃ e, delegateAdd invokerOk ncNoType = DelegateOutcome.err e := by
  constructor
  · rfl
  · rintro ⟨e, he⟩
    rw [show delegateAdd invokerOk ncNoType = DelegateOutcome.panicked
      from rfl] at he
    exact DelegateOutcome.noConfusion he

/-- Claim C7: the delegator's re-serialization preserves the resolved object
exactly — unmarshalling the marshalled entries yields a map with the same
lookups as the resolved object (no field added, removed or mutated) and the
same key set up to order. -/
theorem delegate_marshal_roundtrip (nc : NetConf)
    (hd : (nc.map Prod.fst).Nodup) :
    (∀ k, goLookup k (jsonUnmarshal (jsonMarshal nc)) = goLookup k nc) ∧
    ((jsonUnmarshal (jsonMarshal nc)).map Prod.fst).Perm (nc.map Prod.fst) := by
  have hperm : (jsonMarshal nc).Perm nc := List.perm_insertionSort _ nc
  have hd2 : ((jsonMarshal nc).map Prod.fst).Nodup :=
    ((hperm.map Prod.fst).nodup_iff).mpr hd
  have hu : jsonUnmarshal (jsonMarshal nc) = jsonMarshal nc :=
    jsonUnmarshal_eq_self _ hd2
  constructor
  · intro k
    rw [hu]
    exact goLookup_perm k _ _ hperm hd2
  · rw [hu]
    exact hperm.map Prod.fst

/-- Witness for C7: on a concrete three-field configuration, the `mtu`
field survives the marshal/unmarshal round trip unchanged. -/
theorem delegate_marshal_roundtrip_witness :
    goLookup "mtu".data (jsonUnmarshal (jsonMarshal ncRound)) =
      goLookup "mtu".data ncRound :=
  (delegate_marshal_roundtrip ncRound (by decide)).1 "mtu".data

/-- Claim C8: the pod-name key is diagnostics-only — the result of
`getNetConf` depends only on the namespace value extracted from the
arguments, so two argument strings agreeing on K8S_POD_NAMESPACE and
differing arbitrarily in K8S_POD_NAME produce the same result. -/
theorem getNetConf_pod_name_irrelevant (c : Config) (args1 args2 : Str)
    (h : (goLookup kPodNamespace (parseExtraArgs args1)).getD [] =
         (goLookup kPodNamespace (parseExtraArgs args2)).getD []) :
    getNetConf c args1 = getNetConf c args2 := by
  unfold getNetConf
  rw [h]

/-- Witness for C8: two argument strings with different pod names (and
segment order) resolve identically. -/
theorem getNetConf_pod_name_irrelevant_witness :
    getNetConf sampleConfig "K8S_POD_NAMESPACE=isolated;K8S_POD_NAME=a".data =
    getNetConf sampleConfig "K8S_POD_NAME=b;K8S_POD_NAMESPACE=isolated".data :=
  getNetConf_pod_name_irrelevant sampleConfig
    "K8S_POD_NAMESPACE=isolated;K8S_POD_NAME=a".data
    "K8S_POD_NAME=b;K8S_POD_NAMESPACE=isolated".data (by decide)

/-- Claim C9: `getNetConf` is a total deterministic function of the
document/argument pair: the logging-instrumented version returns, for every
ambient log state, exactly the value of the pure function `getNetConf`, so
any two evaluations on the same pair agree and nothing outside the inputs
influences the result. -/
theorem getNetConf_deterministic (c : Config) (args : Str)
    (log1 log2 : List LogEvent) :
    (getNetConfLog c args log1).1 = getNetConf c args ∧
    (getNetConfLog c args log1).1 = (getNetConfLog c args log2).1 := by
  have h1 : ∀ l : List LogEvent, (getNetConfLog c args l).1 = getNetConf c args := by
    intro l
    unfold getNetConfLog getNetConf resolveNs
    by_cases hns : (goLookup kPodNamespace (parseExtraArgs args)).getD [] = []
    · simp [hns]
    · rcases hl : goLookup ((goLookup kPodNamespace (parseExtraArgs args)).getD [])
        c.Namespaces with _ | cfg
      · by_cases hd : c.Default.length = 0 <;> simp [hns, hl, hd]
      · simp [hns, hl]
  exact ⟨h1 log1, (h1 log1).trans (h1 log2).symm⟩

/-- Claim C10: the non-emptiness check applies only to the default — a
namespace entry that is the empty object is still returned as-is, with no
fall-through to the default or to the no-config error. -/
theorem getNetConf_empty_entry_returned (c : Config) (args : Str) (N : Str)
    (hN : N ≠ [])
    (hval : (goLookup kPodNamespace (parseExtraArgs args)).getD [] = N)
    (hmem : goLookup N c.Namespaces = some []) :
    getNetConf c args = Except.ok [] := by
  unfold getNetConf
  rw [hval]
  unfold resolveNs
  rw [if_neg hN, hmem]

/-- Witness for C10: the `empty` namespace entry of the sample document is
the empty object and is returned even though a non-empty default exists. -/
theorem getNetConf_empty_entry_returned_witness :
    getNetConf sampleConfig "K8S_POD_NAMESPACE=empty".data = Except.ok [] :=
  getNetConf_empty_entry_returned sampleConfig "K8S_POD_NAMESPACE=empty".data
    "empty".data (by decide) (by decide) (by decide)

end KubeCni
